import Mathlib

/-
Shallow embedding of the mls-chat program (src/main.rs).

The program is a single-file Rust CLI managing an in-memory application
state (struct MlsChatApp) of groups, user key material and the currently
active user, persisted to JSON between invocations.  We embed the
in-memory state and the six operations the CLI dispatches to.

Modelling choices, all mirroring the source:
  - Rust String values are embedded as List Char (byte strings; all
    strings the program builds are ASCII).
  - HashMap is embedded as an association list with update-in-place
    insert; the program only uses get / get_mut / insert / contains_key,
    whose behavior the association list reproduces exactly.
  - Uuid new_v4 and Utc now are external nondeterminism: each operation
    takes the fresh values it draws as explicit arguments.
  - The u32 epoch counter is a Nat incremented modulo 2 ^ 32.
  - File persistence (save_state / load_state) is outside the embedded
    core; an operation that returns an error leaves the state unchanged,
    exactly as in the source where every error return happens before any
    mutation.
-/

/-- Byte strings of the program, embedded as lists of characters. -/
abbrev Str := List Char

/-- Coerce a Lean string literal to the embedded string type. -/
def str (s : String) : Str := s.data

/-- The two possible users (enum UserName in the source). -/
inductive UserName
  | Alice
  | Bob
deriving DecidableEq

/-- UserName::to_string from the source's Display impl. -/
def userStr : UserName → Str
  | UserName.Alice => str "Alice"
  | UserName.Bob => str "Bob"

/-- Mock cryptographic key (struct MockKey). -/
structure MockKey where
  id : Str
  public_key : Str
  private_key : Str
deriving DecidableEq

/-- Mock MLS group state (struct MockMlsGroup). -/
structure MockMlsGroup where
  group_id : Str
  epoch : Nat
  tree_hash : Str
  group_secret : Str
  members : List Str
deriving DecidableEq

/-- A message in a group (struct ChatMessage); timestamp is abstracted
to a Nat drawn externally. -/
structure ChatMessage where
  id : Str
  sender : Str
  content : Str
  encrypted_content : Str
  timestamp : Nat
  group_id : Str
  epoch : Nat
deriving DecidableEq

/-- A group in the chat application (struct ChatGroup). -/
structure ChatGroup where
  name : Str
  group_id : Str
  members : List Str
  messages : List ChatMessage
  mls_group : MockMlsGroup
deriving DecidableEq

/-- The application state (struct MlsChatApp); the data_dir field is
part of the persistence layer and carries no protocol state. -/
structure MlsChatApp where
  current_user : Option UserName
  groups : List (Str × ChatGroup)
  user_keys : List (Str × MockKey)
deriving DecidableEq

/-- HashMap get: first binding of the key in the association list. -/
def lookupA {α : Type} (k : Str) : List (Str × α) → Option α
  | [] => none
  | (k', v) :: rest => if k' = k then some v else lookupA k rest

/-- HashMap insert: replace the binding of the key if present,
otherwise add a new one. -/
def insertA {α : Type} (k : Str) (v : α) : List (Str × α) → List (Str × α)
  | [] => [(k, v)]
  | (k', v') :: rest =>
      if k' = k then (k, v) :: rest else (k', v') :: insertA k v rest

/-- The error returns of the operations (the anyhow error messages of
the source, one constructor per distinct message). -/
inductive Err
  | noUserInitialized
  | userNotInitialized
  | groupNotFound
  | memberNotInitialized
  | senderNotMember
deriving DecidableEq

/-- The fresh state MlsChatApp::new starts from. -/
def emptyApp : MlsChatApp := ⟨none, [], []⟩

/-- fn init_user: store a freshly generated mock key for the user and
make the user current.  Never fails. -/
def init_user (app : MlsChatApp) (user : UserName)
    (uuidKey uuidPub uuidPriv : Str) : Except Err MlsChatApp :=
  let key : MockKey :=
    ⟨uuidKey, str "pub_key_" ++ uuidPub, str "priv_key_" ++ uuidPriv⟩
  Except.ok { app with
    user_keys := insertA (userStr user) key app.user_keys,
    current_user := some user }

/-- fn create_group: requires a current user with stored keys; builds a
fresh group at epoch 1 whose sole member is the current user and inserts
it under the given name (overwriting any existing group of that name). -/
def create_group (app : MlsChatApp) (name : Str)
    (uuidGid uuidTree uuidSecret : Str) : Except Err MlsChatApp :=
  match app.current_user with
  | none => Except.error Err.noUserInitialized
  | some user =>
      if (lookupA (userStr user) app.user_keys).isNone then
        Except.error Err.userNotInitialized
      else
        let mls_group : MockMlsGroup :=
          ⟨uuidGid, 1, str "tree_hash_" ++ uuidTree,
            str "group_secret_" ++ uuidSecret, [userStr user]⟩
        let chat_group : ChatGroup :=
          ⟨name, uuidGid, [userStr user], [], mls_group⟩
        Except.ok { app with groups := insertA name chat_group app.groups }

/-- The group update of the non-idempotent branch of fn add_member:
epoch incremented (u32 arithmetic), secret and tree hash regenerated
from fresh uuids, the member appended to both membership lists. -/
def rotatedGroup (group : ChatGroup) (member : UserName)
    (uuidSecret uuidTree : Str) : ChatGroup :=
  let newMembers := group.members ++ [userStr member]
  { group with
    members := newMembers,
    mls_group := { group.mls_group with
      epoch := (group.mls_group.epoch + 1) % 4294967296,
      group_secret := str "group_secret_" ++ uuidSecret,
      tree_hash := str "tree_hash_" ++ uuidTree,
      members := newMembers } }

/-- fn add_member: requires a current user; looks the group up by name;
if the target is already a member, returns success without mutating;
otherwise requires the target to have stored keys and commits the
rotation. -/
def add_member (app : MlsChatApp) (group_name : Str) (member : UserName)
    (uuidSecret uuidTree : Str) : Except Err MlsChatApp :=
  match app.current_user with
  | none => Except.error Err.noUserInitialized
  | some _user =>
      match lookupA group_name app.groups with
      | none => Except.error Err.groupNotFound
      | some group =>
          if userStr member ∈ group.members then
            Except.ok app
          else if (lookupA (userStr member) app.user_keys).isNone then
            Except.error Err.memberNotInitialized
          else
            Except.ok { app with
              groups := insertA group_name
                (rotatedGroup group member uuidSecret uuidTree) app.groups }

/-- The space-to-underscore substitution the source applies to the
plaintext before embedding it in the mock ciphertext (content.replace of
a single-character pattern). -/
def underscorify (s : Str) : Str :=
  s.map (fun c => if c = ' ' then '_' else c)

/-- The mock encryption of fn send_message: a header of the first 16
bytes of the group secret followed by the underscored plaintext.  The
source byte-slices the secret, which would panic on a secret shorter
than 16 bytes; every secret the program generates is a 13-byte tag plus
a 36-byte uuid, so the slice always succeeds and equals List.take. -/
def encryptContent (secret content : Str) : Str :=
  (str "encrypted_" ++ secret.take 16 ++ str "_") ++ underscorify content

/-- The message built by fn send_message. -/
def builtMessage (user : UserName) (group : ChatGroup)
    (content uuidMsg : Str) (ts : Nat) : ChatMessage :=
  ⟨uuidMsg, userStr user, content,
    encryptContent group.mls_group.group_secret content,
    ts, group.group_id, group.mls_group.epoch⟩

/-- fn send_message: requires a current user who is a member of the
named group; appends the message stamped with the group's current epoch. -/
def send_message (app : MlsChatApp) (group_name content : Str)
    (uuidMsg : Str) (ts : Nat) : Except Err MlsChatApp :=
  match app.current_user with
  | none => Except.error Err.noUserInitialized
  | some user =>
      match lookupA group_name app.groups with
      | none => Except.error Err.groupNotFound
      | some group =>
          if userStr user ∈ group.members then
            Except.ok { app with
              groups := insertA group_name
                { group with messages :=
                    group.messages ++ [builtMessage user group content uuidMsg ts] }
                app.groups }
          else
            Except.error Err.senderNotMember

/-- fn list_messages: read-only projection; fails only when the group
is unknown. -/
def list_messages (app : MlsChatApp) (group_name : Str) :
    Except Err MlsChatApp :=
  match lookupA group_name app.groups with
  | none => Except.error Err.groupNotFound
  | some _ => Except.ok app

/-- fn show_group_info: read-only projection; fails only when the group
is unknown. -/
def show_group_info (app : MlsChatApp) (group_name : Str) :
    Except Err MlsChatApp :=
  match lookupA group_name app.groups with
  | none => Except.error Err.groupNotFound
  | some _ => Except.ok app

/-- Modelled from the spec: neither fn list_messages nor any other part
of the source decrypts a ciphertext (design note in the spec records
that the original source does not actually decrypt on read), yet the
spec's round-trip law P3 requires a decryption.  This is the inverse of
the mock encryption above: strip the header (the fixed tag and the
16-byte secret excerpt and the separator) and undo the
space-to-underscore substitution. -/
def decryptContent (secret ciphertext : Str) : Str :=
  (ciphertext.drop (str "encrypted_" ++ secret.take 16 ++ str "_").length).map
    (fun c => if c = '_' then ' ' else c)

/-- The command surface of the CLI (enum Commands), with the external
nondeterminism (uuids, timestamps) made explicit. -/
inductive Commands
  | init (user : UserName) (uuidKey uuidPub uuidPriv : Str)
  | createGroup (name uuidGid uuidTree uuidSecret : Str)
  | addMember (group : Str) (member : UserName) (uuidSecret uuidTree : Str)
  | send (group message uuidMsg : Str) (ts : Nat)
  | listMessages (group : Str)
  | info (group : Str)
deriving DecidableEq

/-- Dispatch of fn main on a parsed command. -/
def applyCommand (app : MlsChatApp) : Commands → Except Err MlsChatApp
  | Commands.init u a b c => init_user app u a b c
  | Commands.createGroup n g t s => create_group app n g t s
  | Commands.addMember n m s t => add_member app n m s t
  | Commands.send n c u ts => send_message app n c u ts
  | Commands.listMessages n => list_messages app n
  | Commands.info n => show_group_info app n

/-- The persistent state after one CLI invocation: on success the
mutated state is saved, on error the process exits without saving and
the state on disk is unchanged. -/
def runCommand (app : MlsChatApp) (c : Commands) : MlsChatApp :=
  match applyCommand app c with
  | Except.ok a => a
  | Except.error _ => app

/-- The persistent state after a sequence of CLI invocations. -/
def runAll (app : MlsChatApp) (cs : List Commands) : MlsChatApp :=
  cs.foldl runCommand app

/-- The epoch the application reports for a group name, when the group
exists. -/
def epochOf (name : Str) (app : MlsChatApp) : Option Nat :=
  (lookupA name app.groups).map (fun g => g.mls_group.epoch)

/-- Whether a command is a group creation under the given name. -/
def isCreateOn (name : Str) : Commands → Bool
  | Commands.createGroup n _ _ _ => decide (n = name)
  | _ => false

/-- Whether an addMember call on this state would take the successful
non-idempotent branch (current user set, group found, target not yet a
member, target has stored keys). -/
def addNonIdemSucc (app : MlsChatApp) (name : Str) (m : UserName) : Bool :=
  app.current_user.isSome &&
    (match lookupA name app.groups with
     | some g =>
         decide (userStr m ∉ g.members) &&
           (lookupA (userStr m) app.user_keys).isSome
     | none => false)

/-- Contribution of one command to the count of successful
non-idempotent member additions on the named group. -/
def stepCount (name : Str) (c : Commands) (app : MlsChatApp) : Nat :=
  match c with
  | Commands.addMember n m _ _ =>
      if n = name then (if addNonIdemSucc app n m then 1 else 0) else 0
  | _ => 0

/-- Number of successful non-idempotent member additions on the named
group along a command sequence. -/
def countSuccAdds (name : Str) : MlsChatApp → List Commands → Nat
  | _, [] => 0
  | app, c :: cs => stepCount name c app + countSuccAdds name (runCommand app c) cs

/-- The membership commands and the read commands: everything except
init and createGroup. -/
def isMemberSendOrRead : Commands → Bool
  | Commands.addMember _ _ _ _ => true
  | Commands.send _ _ _ _ => true
  | Commands.listMessages _ => true
  | Commands.info _ => true
  | _ => false

/-- The two membership views of every stored group agree. -/
def viewsAligned (app : MlsChatApp) : Prop :=
  ∀ n g, lookupA n app.groups = some g → g.members = g.mls_group.members

/-- The invariant of a stored group along traces: no duplicate members,
members drawn from the two users, epoch equal to the number of members,
and at least one member.  Established at creation and preserved by every
command that is not a creation under the group's name. -/
structure GInv (g : ChatGroup) : Prop where
  nodup : g.members.Nodup
  onlyUsers : ∀ x ∈ g.members, x = userStr UserName.Alice ∨ x = userStr UserName.Bob
  epoch_eq : g.mls_group.epoch = g.members.length
  nonempty : g.members ≠ []

theorem lookupA_insertA_self {α : Type} (k : Str) (v : α) (l : List (Str × α)) :
    lookupA k (insertA k v l) = some v := by
  induction l with
  | nil => simp [insertA, lookupA]
  | cons p t ih =>
      obtain ⟨k', v'⟩ := p
      by_cases h : k' = k <;> simp [insertA, lookupA, h, ih]

theorem lookupA_insertA_of_ne {α : Type} (k k' : Str) (v : α)
    (l : List (Str × α)) (h : k ≠ k') :
    lookupA k' (insertA k v l) = lookupA k' l := by
  have h' : k' ≠ k := Ne.symm h
  induction l with
  | nil => simp [insertA, lookupA, h]
  | cons p t ih =>
      obtain ⟨a, b⟩ := p
      by_cases ha : a = k
      · subst ha; simp [insertA, lookupA, h]
      · by_cases hb : a = k' <;> simp [insertA, lookupA, ha, hb, h', ih]

theorem runCommand_init (app : MlsChatApp) (u : UserName) (a b c : Str) :
    runCommand app (Commands.init u a b c) =
      { app with
        user_keys := insertA (userStr u)
          ⟨a, str "pub_key_" ++ b, str "priv_key_" ++ c⟩ app.user_keys,
        current_user := some u } := rfl

theorem runCommand_listMessages (app : MlsChatApp) (n : Str) :
    runCommand app (Commands.listMessages n) = app := by
  cases hl : lookupA n app.groups <;>
    simp [runCommand, applyCommand, list_messages, hl]

theorem runCommand_info (app : MlsChatApp) (n : Str) :
    runCommand app (Commands.info n) = app := by
  cases hl : lookupA n app.groups <;>
    simp [runCommand, applyCommand, show_group_info, hl]

theorem runCommand_createGroup_lookup_ne (app : MlsChatApp)
    (n name gid th gs : Str) (hne : n ≠ name) :
    lookupA name (runCommand app (Commands.createGroup n gid th gs)).groups =
      lookupA name app.groups := by
  cases hu : app.current_user with
  | none => simp [runCommand, applyCommand, create_group, hu]
  | some u =>
      cases hk : (lookupA (userStr u) app.user_keys).isNone <;>
        simp [runCommand, applyCommand, create_group, hu, hk,
          lookupA_insertA_of_ne _ _ _ _ hne]

theorem members_length_le_two (l : List Str)
    (hn : l.Nodup)
    (hs : ∀ x ∈ l, x = userStr UserName.Alice ∨ x = userStr UserName.Bob) :
    l.length ≤ 2 := by
  rcases l with _ | ⟨x, _ | ⟨y, _ | ⟨z, t⟩⟩⟩
  · simp
  · simp
  · simp
  · exfalso
    have hx := hs x (by simp)
    have hy := hs y (by simp)
    have hz := hs z (by simp)
    simp [List.nodup_cons] at hn
    rcases hx with rfl | rfl <;> rcases hy with rfl | rfl <;>
      rcases hz with rfl | rfl <;> simp_all [userStr]

theorem step_epoch (name : Str) (c : Commands) (app : MlsChatApp) (g : ChatGroup)
    (h : lookupA name app.groups = some g) (hg : GInv g)
    (hc : isCreateOn name c = false) :
    ∃ g', lookupA name (runCommand app c).groups = some g' ∧ GInv g' ∧
      g'.mls_group.epoch = g.mls_group.epoch + stepCount name c app := by
  cases c with
  | init u a b c =>
      exact ⟨g, by simpa [runCommand_init] using h, hg, by simp [stepCount]⟩
  | listMessages n =>
      exact ⟨g, by simpa [runCommand_listMessages] using h, hg, by simp [stepCount]⟩
  | info n =>
      exact ⟨g, by simpa [runCommand_info] using h, hg, by simp [stepCount]⟩
  | createGroup n gid th gs =>
      have hne : n ≠ name := by
        intro e; subst e; simp [isCreateOn] at hc
      exact ⟨g,
        by simpa [runCommand_createGroup_lookup_ne _ _ _ _ _ _ hne] using h,
        hg, by simp [stepCount]⟩
  | send n content uuid ts =>
      by_cases hn : n = name
      · subst hn
        cases hu : app.current_user with
        | none =>
            exact ⟨g, by simpa [runCommand, applyCommand, send_message, hu] using h,
              hg, by simp [stepCount]⟩
        | some u =>
            by_cases hm : userStr u ∈ g.members
            · refine ⟨{ g with messages :=
                  g.messages ++ [builtMessage u g content uuid ts] },
                ?_, ?_, by simp [stepCount]⟩
              · simp [runCommand, applyCommand, send_message, hu, h, hm,
                  lookupA_insertA_self]
              · exact ⟨hg.nodup, hg.onlyUsers, hg.epoch_eq, hg.nonempty⟩
            · exact ⟨g,
                by simpa [runCommand, applyCommand, send_message, hu, h, hm] using h,
                hg, by simp [stepCount]⟩
      · have hpre : lookupA name
            (runCommand app (Commands.send n content uuid ts)).groups =
            lookupA name app.groups := by
          cases hu : app.current_user with
          | none => simp [runCommand, applyCommand, send_message, hu]
          | some u =>
              cases hl : lookupA n app.groups with
              | none => simp [runCommand, applyCommand, send_message, hu, hl]
              | some gx =>
                  by_cases hm : userStr u ∈ gx.members <;>
                    simp [runCommand, applyCommand, send_message, hu, hl, hm,
                      lookupA_insertA_of_ne _ _ _ _ hn]
        exact ⟨g, by simpa [hpre] using h, hg, by simp [stepCount]⟩
  | addMember n m us ut =>
      by_cases hn : n = name
      · subst hn
        cases hu : app.current_user with
        | none =>
            refine ⟨g, by simpa [runCommand, applyCommand, add_member, hu] using h,
              hg, ?_⟩
            simp [stepCount, addNonIdemSucc, hu]
        | some u =>
            by_cases hm : userStr m ∈ g.members
            · refine ⟨g,
                by simpa [runCommand, applyCommand, add_member, hu, h, hm] using h,
                hg, ?_⟩
              simp [stepCount, addNonIdemSucc, hu, h, hm]
            · cases hk : lookupA (userStr m) app.user_keys with
              | none =>
                  refine ⟨g,
                    by simpa [runCommand, applyCommand, add_member, hu, h, hm, hk] using h,
                    hg, ?_⟩
                  simp [stepCount, addNonIdemSucc, hu, h, hm, hk]
              | some key =>
                  have hlt : g.mls_group.epoch + 1 < 4294967296 := by
                    have h2 := members_length_le_two g.members hg.nodup hg.onlyUsers
                    have h3 := hg.epoch_eq
                    omega
                  refine ⟨rotatedGroup g m us ut, ?_, ?_, ?_⟩
                  · simp [runCommand, applyCommand, add_member, hu, h, hm, hk,
                      lookupA_insertA_self]
                  · refine ⟨?_, ?_, ?_, ?_⟩
                    · have hnd : (g.members ++ [userStr m]).Nodup := by
                        rw [List.nodup_append]
                        refine ⟨hg.nodup, List.nodup_singleton _, ?_⟩
                        intro a ha hb
                        simp at hb
                        subst hb
                        exact hm ha
                      simpa [rotatedGroup] using hnd
                    · intro x hx
                      simp [rotatedGroup] at hx
                      rcases hx with hx | hx
                      · exact hg.onlyUsers x hx
                      · subst hx; cases m <;> simp [userStr]
                    · have h2 := members_length_le_two g.members hg.nodup hg.onlyUsers
                      have hlt2 : g.members.length + 1 < 4294967296 := by omega
                      simp [rotatedGroup, hg.epoch_eq, Nat.mod_eq_of_lt hlt2]
                    · simp [rotatedGroup]
                  · simp [rotatedGroup, stepCount, addNonIdemSucc, hu, h, hm, hk,
                      Nat.mod_eq_of_lt hlt]
      · have hpre : lookupA name
            (runCommand app (Commands.addMember n m us ut)).groups =
            lookupA name app.groups := by
          cases hu : app.current_user with
          | none => simp [runCommand, applyCommand, add_member, hu]
          | some u =>
              cases hl : lookupA n app.groups with
              | none => simp [runCommand, applyCommand, add_member, hu, hl]
              | some gx =>
                  by_cases hm : userStr m ∈ gx.members
                  · simp [runCommand, applyCommand, add_member, hu, hl, hm]
                  · cases hk : lookupA (userStr m) app.user_keys with
                    | none =>
                        simp [runCommand, applyCommand, add_member, hu, hl, hm, hk]
                    | some key =>
                        simp [runCommand, applyCommand, add_member, hu, hl, hm, hk,
                          lookupA_insertA_of_ne _ _ _ _ hn]
        refine ⟨g, by simpa [hpre] using h, hg, ?_⟩
        simp [stepCount, hn]

theorem countSuccAdds_nil (name : Str) (app : MlsChatApp) :
    countSuccAdds name app [] = 0 := rfl

theorem countSuccAdds_cons (name : Str) (app : MlsChatApp) (c : Commands)
    (cs : List Commands) :
    countSuccAdds name app (c :: cs) =
      stepCount name c app + countSuccAdds name (runCommand app c) cs := rfl

theorem trace_epoch (name : Str) (cs : List Commands) :
    ∀ (app : MlsChatApp) (g : ChatGroup),
      lookupA name app.groups = some g → GInv g →
      (∀ c ∈ cs, isCreateOn name c = false) →
      ∃ g', lookupA name (runAll app cs).groups = some g' ∧ GInv g' ∧
        g'.mls_group.epoch = g.mls_group.epoch + countSuccAdds name app cs := by
  induction cs with
  | nil =>
      intro app g h hg _
      exact ⟨g, by simpa [runAll] using h, hg, by simp [countSuccAdds]⟩
  | cons c cs ih =>
      intro app g h hg hcs
      obtain ⟨g1, h1, hg1, he1⟩ := step_epoch name c app g h hg (hcs c (by simp))
      obtain ⟨g', h', hg', he'⟩ :=
        ih (runCommand app c) g1 h1 hg1 (fun x hx => hcs x (by simp [hx]))
      refine ⟨g', ?_, hg', ?_⟩
      · simpa [runAll] using h'
      · simp only [countSuccAdds]
        omega

theorem runAll_append (app : MlsChatApp) (cs1 cs2 : List Commands) :
    runAll app (cs1 ++ cs2) = runAll (runAll app cs1) cs2 := by
  simp [runAll, List.foldl_append]

theorem countSuccAdds_append (name : Str) (cs1 cs2 : List Commands) :
    ∀ app, countSuccAdds name app (cs1 ++ cs2) =
      countSuccAdds name app cs1 + countSuccAdds name (runAll app cs1) cs2 := by
  induction cs1 with
  | nil => intro app; simp [countSuccAdds, runAll]
  | cons c cs ih =>
      intro app
      rw [List.cons_append, countSuccAdds_cons, countSuccAdds_cons,
        ih (runCommand app c)]
      have h2 : runAll app (c :: cs) = runAll (runCommand app c) cs := by
        simp [runAll]
      rw [h2]
      omega

theorem de_underscorify (m : Str) (hm : '_' ∉ m) :
    (underscorify m).map (fun c => if c = '_' then ' ' else c) = m := by
  induction m with
  | nil => rfl
  | cons c t ih =>
      simp only [List.mem_cons, not_or] at hm
      obtain ⟨hc, ht⟩ := hm
      have hc' : c ≠ '_' := fun e => hc e.symm
      by_cases hsp : c = ' '
      · subst hsp
        simpa [underscorify] using ih ht
      · simp only [underscorify, List.map_cons, if_neg hsp, if_neg hc']
        simpa [underscorify] using ih ht

theorem encrypt_roundTrip (secret m : Str) (hm : '_' ∉ m) :
    decryptContent secret (encryptContent secret m) = m := by
  unfold decryptContent encryptContent
  rw [List.drop_left]
  exact de_underscorify m hm

theorem runCommand_addMember_lookup_ne (app : MlsChatApp) (n : Str)
    (m : UserName) (us ut : Str) (name : Str) (hn : n ≠ name) :
    lookupA name (runCommand app (Commands.addMember n m us ut)).groups =
      lookupA name app.groups := by
  cases hu : app.current_user with
  | none => simp [runCommand, applyCommand, add_member, hu]
  | some u =>
      cases hl : lookupA n app.groups with
      | none => simp [runCommand, applyCommand, add_member, hu, hl]
      | some gx =>
          by_cases hm : userStr m ∈ gx.members
          · simp [runCommand, applyCommand, add_member, hu, hl, hm]
          · cases hk : lookupA (userStr m) app.user_keys with
            | none => simp [runCommand, applyCommand, add_member, hu, hl, hm, hk]
            | some key =>
                simp [runCommand, applyCommand, add_member, hu, hl, hm, hk,
                  lookupA_insertA_of_ne _ _ _ _ hn]

theorem runCommand_send_lookup_ne (app : MlsChatApp) (n content uuid : Str)
    (ts : Nat) (name : Str) (hn : n ≠ name) :
    lookupA name (runCommand app (Commands.send n content uuid ts)).groups =
      lookupA name app.groups := by
  cases hu : app.current_user with
  | none => simp [runCommand, applyCommand, send_message, hu]
  | some u =>
      cases hl : lookupA n app.groups with
      | none => simp [runCommand, applyCommand, send_message, hu, hl]
      | some gx =>
          by_cases hm : userStr u ∈ gx.members <;>
            simp [runCommand, applyCommand, send_message, hu, hl, hm,
              lookupA_insertA_of_ne _ _ _ _ hn]

theorem send_message_ok (app : MlsChatApp) (u : UserName)
    (name content uuid : Str) (ts : Nat) (g : ChatGroup)
    (hu : app.current_user = some u) (h : lookupA name app.groups = some g)
    (hm : userStr u ∈ g.members) :
    send_message app name content uuid ts = Except.ok { app with
      groups := insertA name
        { g with messages := g.messages ++ [builtMessage u g content uuid ts] }
        app.groups } := by
  simp [send_message, hu, h, hm]

theorem step_messages (n : Str) (c : Commands) (app : MlsChatApp)
    (g : ChatGroup) (h : lookupA n app.groups = some g)
    (hc : isMemberSendOrRead c = true) :
    ∃ g' tail, lookupA n (runCommand app c).groups = some g' ∧
      g'.messages = g.messages ++ tail := by
  cases c with
  | init u a b c => simp [isMemberSendOrRead] at hc
  | createGroup n' gid th gs => simp [isMemberSendOrRead] at hc
  | listMessages n' =>
      exact ⟨g, [], by simpa [runCommand_listMessages] using h, by simp⟩
  | info n' =>
      exact ⟨g, [], by simpa [runCommand_info] using h, by simp⟩
  | addMember n' m us ut =>
      by_cases hn : n' = n
      · subst hn
        cases hu : app.current_user with
        | none =>
            exact ⟨g, [],
              by simpa [runCommand, applyCommand, add_member, hu] using h, by simp⟩
        | some u =>
            by_cases hm : userStr m ∈ g.members
            · exact ⟨g, [],
                by simpa [runCommand, applyCommand, add_member, hu, h, hm] using h,
                by simp⟩
            · cases hk : lookupA (userStr m) app.user_keys with
              | none =>
                  exact ⟨g, [],
                    by simpa [runCommand, applyCommand, add_member, hu, h, hm, hk] using h,
                    by simp⟩
              | some key =>
                  refine ⟨rotatedGroup g m us ut, [], ?_, by simp [rotatedGroup]⟩
                  simp [runCommand, applyCommand, add_member, hu, h, hm, hk,
                    lookupA_insertA_self]
      · exact ⟨g, [],
          by simpa [runCommand_addMember_lookup_ne _ _ _ _ _ _ hn] using h, by simp⟩
  | send n' content uuid ts =>
      by_cases hn : n' = n
      · subst hn
        cases hu : app.current_user with
        | none =>
            exact ⟨g, [],
              by simpa [runCommand, applyCommand, send_message, hu] using h, by simp⟩
        | some u =>
            by_cases hm : userStr u ∈ g.members
            · refine ⟨{ g with messages :=
                  g.messages ++ [builtMessage u g content uuid ts] },
                [builtMessage u g content uuid ts], ?_, by simp⟩
              simp [runCommand, applyCommand, send_message, hu, h, hm,
                lookupA_insertA_self]
            · exact ⟨g, [],
                by simpa [runCommand, applyCommand, send_message, hu, h, hm] using h,
                by simp⟩
      · exact ⟨g, [],
          by simpa [runCommand_send_lookup_ne _ _ _ _ _ _ hn] using h, by simp⟩

/-- Results of the operations compare decidably, so concrete runs can be
settled by evaluation. -/
instance exceptDecEq {ε α : Type} [DecidableEq ε] [DecidableEq α] :
    DecidableEq (Except ε α) := fun a b =>
  match a, b with
  | Except.ok x, Except.ok y =>
      if h : x = y then isTrue (congrArg Except.ok h)
      else isFalse (fun e => h (Except.ok.inj e))
  | Except.error x, Except.error y =>
      if h : x = y then isTrue (congrArg Except.error h)
      else isFalse (fun e => h (Except.error.inj e))
  | Except.ok _, Except.error _ => isFalse (fun e => Except.noConfusion e)
  | Except.error _, Except.ok _ => isFalse (fun e => Except.noConfusion e)

/-- A stored key for Alice, as init_user would create it. -/
def keyA : MockKey := ⟨str "ka", str "pub_key_a", str "priv_key_a"⟩

/-- A stored key for Bob, as init_user would create it. -/
def keyB : MockKey := ⟨str "kb", str "pub_key_b", str "priv_key_b"⟩

/-- A concrete group (name team) whose sole member is Alice, with a
secret of the shape and length the program generates. -/
def teamG : ChatGroup :=
  ⟨str "team", str "gid1", [str "Alice"], [],
    ⟨str "gid1", 1, str "tree_hash_x",
      str "group_secret_00000000-0000-4000-8000-000000000000", [str "Alice"]⟩⟩

/-- A concrete state: Alice active and keyed, team present. -/
def appAlice : MlsChatApp :=
  ⟨some UserName.Alice, [(str "team", teamG)], [(str "Alice", keyA)]⟩

/-- A concrete state: Bob active and keyed but not a member of team. -/
def appBob : MlsChatApp :=
  ⟨some UserName.Bob, [(str "team", teamG)],
    [(str "Alice", keyA), (str "Bob", keyB)]⟩

/-- A concrete state with no active user even though team exists and both
users have stored keys (the active-user marker is a separate persisted
record whose absence on load is treated as empty). -/
def appNoUser : MlsChatApp :=
  ⟨none, [(str "team", teamG)], [(str "Alice", keyA), (str "Bob", keyB)]⟩

/-- A concrete state where Alice is active and a member of team but has no
stored key material. -/
def appKeyless : MlsChatApp := ⟨some UserName.Alice, [(str "team", teamG)], []⟩

/-- C3 counterexample: in a state with no active identity, AddMember on a
target already in the member list returns an error, not the non-error
notice the claim promises for every group and every such target. -/
theorem C3_add_fails_without_active_user :
    userStr UserName.Alice ∈ teamG.members ∧
    add_member appNoUser (str "team") UserName.Alice (str "s") (str "t") =
      Except.error Err.noUserInitialized := by
  decide

/-- C3 (amended): provided an active identity is set, AddMember on a target
already in the group's member list returns a non-error result and leaves
the whole application state - epoch, secret, tree hash, member list and
message list included - unchanged. -/
theorem C3_idempotent_add_noop (app : MlsChatApp) (u : UserName)
    (name : Str) (m : UserName) (us ut : Str) (g : ChatGroup)
    (h1 : app.current_user = some u) (h2 : lookupA name app.groups = some g)
    (h3 : userStr m ∈ g.members) :
    add_member app name m us ut = Except.ok app := by
  simp [add_member, h1, h2, h3]

/-- Witness for C3 at a concrete state. -/
theorem C3_idempotent_add_noop_witness :
    add_member appAlice (str "team") UserName.Alice (str "s") (str "t") =
      Except.ok appAlice :=
  C3_idempotent_add_noop appAlice UserName.Alice (str "team") UserName.Alice
    (str "s") (str "t") teamG (by decide) (by decide) (by decide)

/-- C4: a Send whose sender is not in the group's member list at call time
fails with the not-a-member error and the state after the command is the
state before it (in particular no message is appended). -/
theorem C4_send_nonmember_fails (app : MlsChatApp) (u : UserName)
    (name content uuid : Str) (ts : Nat) (g : ChatGroup)
    (h1 : app.current_user = some u) (h2 : lookupA name app.groups = some g)
    (h3 : userStr u ∉ g.members) :
    send_message app name content uuid ts = Except.error Err.senderNotMember ∧
    runCommand app (Commands.send name content uuid ts) = app := by
  have hs : send_message app name content uuid ts =
      Except.error Err.senderNotMember := by
    simp [send_message, h1, h2, h3]
  exact ⟨hs, by simp [runCommand, applyCommand, hs]⟩

/-- Witness for C4: Bob has keys but is not a member of team. -/
theorem C4_send_nonmember_fails_witness :
    send_message appBob (str "team") (str "hi") (str "m1") 5 =
      Except.error Err.senderNotMember ∧
    runCommand appBob (Commands.send (str "team") (str "hi") (str "m1") 5) =
      appBob :=
  C4_send_nonmember_fails appBob UserName.Bob (str "team") (str "hi")
    (str "m1") 5 teamG (by decide) (by decide) (by decide)

/-- C5 counterexample: a state in which the claim's precondition holds -
the group exists and the target has a registered identity - yet AddMember
fails, and with an error distinct from the two the claim allows, because
no active identity is set. -/
theorem C5_third_failure_mode :
    add_member appNoUser (str "team") UserName.Bob (str "s") (str "t") =
      Except.error Err.noUserInitialized ∧
    Err.noUserInitialized ≠ Err.groupNotFound ∧
    Err.noUserInitialized ≠ Err.memberNotInitialized ∧
    lookupA (str "team") appNoUser.groups = some teamG ∧
    lookupA (userStr UserName.Bob) appNoUser.user_keys = some keyB := by
  decide

/-- C5 (amended): AddMember fails in exactly three cases - no active
identity set, unknown group name, and a target that is not yet a member
and has no stored identity; in every other case it succeeds. -/
theorem C5_add_member_failure_modes (app : MlsChatApp) (name : Str)
    (m : UserName) (us ut : Str) :
    (app.current_user = none →
      add_member app name m us ut = Except.error Err.noUserInitialized) ∧
    (app.current_user.isSome = true → lookupA name app.groups = none →
      add_member app name m us ut = Except.error Err.groupNotFound) ∧
    (∀ g, app.current_user.isSome = true → lookupA name app.groups = some g →
      userStr m ∉ g.members → lookupA (userStr m) app.user_keys = none →
      add_member app name m us ut = Except.error Err.memberNotInitialized) ∧
    (∀ g, app.current_user.isSome = true → lookupA name app.groups = some g →
      (userStr m ∈ g.members ∨ (lookupA (userStr m) app.user_keys).isSome = true) →
      ∃ app', add_member app name m us ut = Except.ok app') := by
  refine ⟨?_, ?_, ?_, ?_⟩
  · intro h
    simp [add_member, h]
  · intro h1 h2
    obtain ⟨u, hu⟩ := Option.isSome_iff_exists.mp h1
    simp [add_member, hu, h2]
  · intro g h1 h2 h3 h4
    obtain ⟨u, hu⟩ := Option.isSome_iff_exists.mp h1
    simp [add_member, hu, h2, h3, h4]
  · intro g h1 h2 h3
    obtain ⟨u, hu⟩ := Option.isSome_iff_exists.mp h1
    rcases h3 with h3 | h3
    · exact ⟨app, by simp [add_member, hu, h2, h3]⟩
    · by_cases hm : userStr m ∈ g.members
      · exact ⟨app, by simp [add_member, hu, h2, hm]⟩
      · obtain ⟨k, hk⟩ := Option.isSome_iff_exists.mp h3
        exact ⟨{ app with groups := insertA name (rotatedGroup g m us ut) app.groups },
          by simp [add_member, hu, h2, hm, hk]⟩

/-- Witness for C5: the no-active-identity branch at a concrete state. -/
theorem C5_add_member_failure_modes_witness :
    add_member appNoUser (str "x") UserName.Bob (str "s") (str "t") =
      Except.error Err.noUserInitialized :=
  (C5_add_member_failure_modes appNoUser (str "x") UserName.Bob
    (str "s") (str "t")).1 (by decide)

/-- C6: with an active identity set (a current user with stored keys),
create_group succeeds and stores under the given name a group carrying the
freshly drawn group id, epoch 1, the freshly formatted secret and tree
hash, and the creator as sole member; with no active identity (or a
current user without stored keys) it fails with a not-initialized error
and the state, hence the group map, is unchanged. -/
theorem C6_create_group_spec (app : MlsChatApp) (name gid th gs : Str) :
    (∀ u, app.current_user = some u →
      (lookupA (userStr u) app.user_keys).isSome = true →
      create_group app name gid th gs = Except.ok { app with
        groups := insertA name
          ⟨name, gid, [userStr u], [],
            ⟨gid, 1, str "tree_hash_" ++ th, str "group_secret_" ++ gs,
              [userStr u]⟩⟩ app.groups } ∧
      lookupA name (runCommand app (Commands.createGroup name gid th gs)).groups =
        some ⟨name, gid, [userStr u], [],
          ⟨gid, 1, str "tree_hash_" ++ th, str "group_secret_" ++ gs,
            [userStr u]⟩⟩) ∧
    (app.current_user = none →
      create_group app name gid th gs = Except.error Err.noUserInitialized ∧
      runCommand app (Commands.createGroup name gid th gs) = app) ∧
    (∀ u, app.current_user = some u →
      lookupA (userStr u) app.user_keys = none →
      create_group app name gid th gs = Except.error Err.userNotInitialized ∧
      runCommand app (Commands.createGroup name gid th gs) = app) := by
  refine ⟨?_, ?_, ?_⟩
  · intro u hu hk
    obtain ⟨k, hkk⟩ := Option.isSome_iff_exists.mp hk
    have h1 : create_group app name gid th gs = Except.ok { app with
        groups := insertA name
          ⟨name, gid, [userStr u], [],
            ⟨gid, 1, str "tree_hash_" ++ th, str "group_secret_" ++ gs,
              [userStr u]⟩⟩ app.groups } := by
      simp [create_group, hu, hkk]
    exact ⟨h1, by simp [runCommand, applyCommand, h1, lookupA_insertA_self]⟩
  · intro hu
    have h1 : create_group app name gid th gs =
        Except.error Err.noUserInitialized := by
      simp [create_group, hu]
    exact ⟨h1, by simp [runCommand, applyCommand, h1]⟩
  · intro u hu hk
    have h1 : create_group app name gid th gs =
        Except.error Err.userNotInitialized := by
      simp [create_group, hu, hk]
    exact ⟨h1, by simp [runCommand, applyCommand, h1]⟩

/-- Witness for C6: Alice creates a fresh group. -/
theorem C6_create_group_spec_witness :
    create_group appAlice (str "fresh") (str "gf") (str "tf") (str "sf") =
      Except.ok { appAlice with
        groups := insertA (str "fresh")
          ⟨str "fresh", str "gf", [userStr UserName.Alice], [],
            ⟨str "gf", 1, str "tree_hash_" ++ str "tf",
              str "group_secret_" ++ str "sf", [userStr UserName.Alice]⟩⟩
          appAlice.groups } ∧
    lookupA (str "fresh") (runCommand appAlice
        (Commands.createGroup (str "fresh") (str "gf") (str "tf") (str "sf"))).groups =
      some ⟨str "fresh", str "gf", [userStr UserName.Alice], [],
        ⟨str "gf", 1, str "tree_hash_" ++ str "tf",
          str "group_secret_" ++ str "sf", [userStr UserName.Alice]⟩⟩ :=
  (C6_create_group_spec appAlice (str "fresh") (str "gf") (str "tf")
    (str "sf")).1 UserName.Alice (by decide) (by decide)

/-- C8: create_group with a name already present in the store returns
success (no error, no notice) and silently replaces the stored group: the
entry under the name becomes a brand-new group at epoch 1 with an empty
message history and only the creator as member. -/
theorem C8_create_replaces_existing (app : MlsChatApp) (u : UserName)
    (name gid th gs : Str) (gOld : ChatGroup)
    (h1 : app.current_user = some u)
    (h2 : (lookupA (userStr u) app.user_keys).isSome = true)
    (h3 : lookupA name app.groups = some gOld) :
    create_group app name gid th gs = Except.ok { app with
      groups := insertA name
        ⟨name, gid, [userStr u], [],
          ⟨gid, 1, str "tree_hash_" ++ th, str "group_secret_" ++ gs,
            [userStr u]⟩⟩ app.groups } ∧
    lookupA name (runCommand app (Commands.createGroup name gid th gs)).groups =
      some ⟨name, gid, [userStr u], [],
        ⟨gid, 1, str "tree_hash_" ++ th, str "group_secret_" ++ gs,
          [userStr u]⟩⟩ := by
  obtain ⟨k, hkk⟩ := Option.isSome_iff_exists.mp h2
  have hok : create_group app name gid th gs = Except.ok { app with
      groups := insertA name
        ⟨name, gid, [userStr u], [],
          ⟨gid, 1, str "tree_hash_" ++ th, str "group_secret_" ++ gs,
            [userStr u]⟩⟩ app.groups } := by
    simp [create_group, h1, hkk]
  exact ⟨hok, by simp [runCommand, applyCommand, hok, lookupA_insertA_self]⟩

/-- Witness for C8: team already exists in the concrete state and is
replaced. -/
theorem C8_create_replaces_existing_witness :
    create_group appAlice (str "team") (str "g9") (str "t9") (str "s9") =
      Except.ok { appAlice with
        groups := insertA (str "team")
          ⟨str "team", str "g9", [userStr UserName.Alice], [],
            ⟨str "g9", 1, str "tree_hash_" ++ str "t9",
              str "group_secret_" ++ str "s9", [userStr UserName.Alice]⟩⟩
          appAlice.groups } ∧
    lookupA (str "team") (runCommand appAlice
        (Commands.createGroup (str "team") (str "g9") (str "t9") (str "s9"))).groups =
      some ⟨str "team", str "g9", [userStr UserName.Alice], [],
        ⟨str "g9", 1, str "tree_hash_" ++ str "t9",
          str "group_secret_" ++ str "s9", [userStr UserName.Alice]⟩⟩ :=
  C8_create_replaces_existing appAlice UserName.Alice (str "team") (str "g9")
    (str "t9") (str "s9") teamG (by decide) (by decide) (by decide)

/-- C9: the already-a-member check precedes the registered-identity check:
adding a target already in the member list returns success as a no-op even
when the target has no stored key material. -/
theorem C9_member_check_before_key_check (app : MlsChatApp) (u : UserName)
    (name : Str) (m : UserName) (us ut : Str) (g : ChatGroup)
    (h1 : app.current_user = some u) (h2 : lookupA name app.groups = some g)
    (h3 : userStr m ∈ g.members)
    (h4 : lookupA (userStr m) app.user_keys = none) :
    add_member app name m us ut = Except.ok app := by
  simp [add_member, h1, h2, h3]

/-- Witness for C9: Alice is a member of team but has no stored keys. -/
theorem C9_member_check_before_key_check_witness :
    add_member appKeyless (str "team") UserName.Alice (str "s") (str "t") =
      Except.ok appKeyless :=
  C9_member_check_before_key_check appKeyless UserName.Alice (str "team")
    UserName.Alice (str "s") (str "t") teamG (by decide) (by decide)
    (by decide) (by decide)

/-- C10: if the ChatGroup member list and the embedded MockMlsGroup member
list agree for every stored group, they still agree after any command;
since create_group stores both lists equal, the two membership views never
diverge along any reachable sequence of operations. -/
theorem C10_views_aligned_preserved (app : MlsChatApp) (c : Commands)
    (h : viewsAligned app) : viewsAligned (runCommand app c) := by
  cases c with
  | init u a b c2 =>
      intro n g hg
      rw [runCommand_init] at hg
      exact h n g hg
  | listMessages n' =>
      intro n g hg
      rw [runCommand_listMessages] at hg
      exact h n g hg
  | info n' =>
      intro n g hg
      rw [runCommand_info] at hg
      exact h n g hg
  | createGroup n' gid th gs =>
      intro n g hg
      cases hu : app.current_user with
      | none =>
          simp [runCommand, applyCommand, create_group, hu] at hg
          exact h n g hg
      | some u =>
          cases hk : lookupA (userStr u) app.user_keys with
          | none =>
              simp [runCommand, applyCommand, create_group, hu, hk] at hg
              exact h n g hg
          | some k =>
              simp [runCommand, applyCommand, create_group, hu, hk] at hg
              by_cases hn : n' = n
              · subst hn
                rw [lookupA_insertA_self] at hg
                cases hg
                rfl
              · rw [lookupA_insertA_of_ne _ _ _ _ hn] at hg
                exact h n g hg
  | addMember n' m us ut =>
      intro n g hg
      cases hu : app.current_user with
      | none =>
          simp [runCommand, applyCommand, add_member, hu] at hg
          exact h n g hg
      | some u =>
          cases hl : lookupA n' app.groups with
          | none =>
              simp [runCommand, applyCommand, add_member, hu, hl] at hg
              exact h n g hg
          | some gx =>
              by_cases hm : userStr m ∈ gx.members
              · simp [runCommand, applyCommand, add_member, hu, hl, hm] at hg
                exact h n g hg
              · cases hk : lookupA (userStr m) app.user_keys with
                | none =>
                    simp [runCommand, applyCommand, add_member, hu, hl, hm, hk] at hg
                    exact h n g hg
                | some k =>
                    simp [runCommand, applyCommand, add_member, hu, hl, hm, hk] at hg
                    by_cases hn : n' = n
                    · subst hn
                      rw [lookupA_insertA_self] at hg
                      cases hg
                      rfl
                    · rw [lookupA_insertA_of_ne _ _ _ _ hn] at hg
                      exact h n g hg
  | send n' content uuid ts =>
      intro n g hg
      cases hu : app.current_user with
      | none =>
          simp [runCommand, applyCommand, send_message, hu] at hg
          exact h n g hg
      | some u =>
          cases hl : lookupA n' app.groups with
          | none =>
              simp [runCommand, applyCommand, send_message, hu, hl] at hg
              exact h n g hg
          | some gx =>
              by_cases hm : userStr u ∈ gx.members
              · simp [runCommand, applyCommand, send_message, hu, hl, hm] at hg
                by_cases hn : n' = n
                · subst hn
                  rw [lookupA_insertA_self] at hg
                  cases hg
                  exact h n' gx hl
                · rw [lookupA_insertA_of_ne _ _ _ _ hn] at hg
                  exact h n g hg
              · simp [runCommand, applyCommand, send_message, hu, hl, hm] at hg
                exact h n g hg

/-- Witness for C10: the empty state is aligned and stays aligned after
an init command. -/
theorem C10_views_aligned_preserved_witness :
    viewsAligned (runCommand emptyApp
      (Commands.init UserName.Alice (str "k") (str "p") (str "q"))) :=
  C10_views_aligned_preserved emptyApp
    (Commands.init UserName.Alice (str "k") (str "p") (str "q"))
    (fun _ _ hg => Option.noConfusion hg)

/-- C2 counterexample: the mock encryption maps the space and the
underscore of the plaintext to the same ciphertext byte, so the round-trip
law fails on the plaintext a_b: decrypting its ciphertext yields a b, a
different plaintext - and indeed no decryption function whatsoever can
invert the encryption, since a b and a_b encrypt to the same ciphertext
under the same secret.  The last conjunct exhibits the Send producing the
colliding ciphertext on a concrete state. -/
theorem C2_roundTrip_fails_on_underscore :
    decryptContent teamG.mls_group.group_secret
      (encryptContent teamG.mls_group.group_secret (str "a_b")) = str "a b" ∧
    str "a b" ≠ str "a_b" ∧
    encryptContent teamG.mls_group.group_secret (str "a b") =
      encryptContent teamG.mls_group.group_secret (str "a_b") ∧
    send_message appAlice (str "team") (str "a_b") (str "m2") 7 =
      Except.ok { appAlice with
        groups := insertA (str "team")
          { teamG with messages := teamG.messages ++
              [builtMessage UserName.Alice teamG (str "a_b") (str "m2") 7] }
          appAlice.groups } := by
  refine ⟨by decide, by decide, by decide, ?_⟩
  decide

/-- C2 (amended): for every plaintext containing no underscore, the
message a successful Send appends decrypts - under the secret of the epoch
stamped on it, which is the group's secret at send time, and under the
decryption that inverts the source's mock encryption (the source itself
contains no decryption routine) - to the original plaintext exactly.  For
plaintexts containing an underscore the law is unsatisfiable because the
encryption is not injective. -/
theorem C2_roundTrip_no_underscore (app : MlsChatApp) (u : UserName)
    (name content uuid : Str) (ts : Nat) (g : ChatGroup)
    (h1 : app.current_user = some u) (h2 : lookupA name app.groups = some g)
    (h3 : userStr u ∈ g.members) (h4 : '_' ∉ content) :
    send_message app name content uuid ts = Except.ok { app with
      groups := insertA name
        { g with messages := g.messages ++ [builtMessage u g content uuid ts] }
        app.groups } ∧
    (builtMessage u g content uuid ts).epoch = g.mls_group.epoch ∧
    decryptContent g.mls_group.group_secret
      (builtMessage u g content uuid ts).encrypted_content = content := by
  exact ⟨send_message_ok app u name content uuid ts g h1 h2 h3, rfl,
    encrypt_roundTrip _ _ h4⟩

/-- Witness for C2 on a concrete state and a plaintext with spaces. -/
theorem C2_roundTrip_no_underscore_witness :
    send_message appAlice (str "team") (str "hi there") (str "m3") 9 =
      Except.ok { appAlice with
        groups := insertA (str "team")
          { teamG with messages := teamG.messages ++
              [builtMessage UserName.Alice teamG (str "hi there") (str "m3") 9] }
          appAlice.groups } ∧
    (builtMessage UserName.Alice teamG (str "hi there") (str "m3") 9).epoch =
      teamG.mls_group.epoch ∧
    decryptContent teamG.mls_group.group_secret
      (builtMessage UserName.Alice teamG
        (str "hi there") (str "m3") 9).encrypted_content = str "hi there" :=
  C2_roundTrip_no_underscore appAlice UserName.Alice (str "team")
    (str "hi there") (str "m3") 9 teamG (by decide) (by decide) (by decide)
    (by decide)

/-- C7: a successful Send appends exactly one message, stamped with the
group's epoch at the instant of the append; and each of the operations
the claim names - AddMember, Send and the two read commands - only ever
extends a group's message sequence, leaving every message already present
(and hence its epoch field) untouched. -/
theorem C7_message_epoch_stamping :
    (∀ (app : MlsChatApp) (u : UserName) (name content uuid : Str)
        (ts : Nat) (g : ChatGroup),
      app.current_user = some u → lookupA name app.groups = some g →
      userStr u ∈ g.members →
      send_message app name content uuid ts = Except.ok { app with
        groups := insertA name
          { g with messages :=
              g.messages ++ [builtMessage u g content uuid ts] }
          app.groups } ∧
      (builtMessage u g content uuid ts).epoch = g.mls_group.epoch) ∧
    (∀ (c : Commands) (app : MlsChatApp) (n : Str) (g : ChatGroup),
      isMemberSendOrRead c = true → lookupA n app.groups = some g →
      ∃ g' tail, lookupA n (runCommand app c).groups = some g' ∧
        g'.messages = g.messages ++ tail) := by
  refine ⟨?_, ?_⟩
  · intro app u name content uuid ts g hu h hm
    exact ⟨send_message_ok app u name content uuid ts g hu h hm, rfl⟩
  · intro c app n g hc h
    exact step_messages n c app g h hc

/-- Witness for C7: Alice sends to team in the concrete state. -/
theorem C7_message_epoch_stamping_witness :
    send_message appAlice (str "team") (str "yo") (str "m7") 3 =
      Except.ok { appAlice with
        groups := insertA (str "team")
          { teamG with messages := teamG.messages ++
              [builtMessage UserName.Alice teamG (str "yo") (str "m7") 3] }
          appAlice.groups } ∧
    (builtMessage UserName.Alice teamG (str "yo") (str "m7") 3).epoch =
      teamG.mls_group.epoch :=
  C7_message_epoch_stamping.1 appAlice UserName.Alice (str "team") (str "yo")
    (str "m7") 3 teamG (by decide) (by decide) (by decide)

/-- The persistent state after Init(Alice), CreateGroup(team), Init(Bob),
AddMember(team, Bob): the stored epoch of team is 2. -/
def recreateTrace : List Commands :=
  [Commands.init UserName.Alice (str "k1") (str "p1") (str "q1"),
   Commands.createGroup (str "team") (str "g1") (str "t1") (str "s1"),
   Commands.init UserName.Bob (str "k2") (str "p2") (str "q2"),
   Commands.addMember (str "team") UserName.Bob (str "s2") (str "t2")]

/-- C1 counterexample: after the four commands of recreateTrace the stored
epoch of team is 2; one further operation, CreateGroup(team) again, brings
the epoch stored for team back to 1.  The epoch thus decreases under an
operation, refuting the claim's final conjunct. -/
theorem C1_epoch_decreases_on_recreate :
    epochOf (str "team") (runAll emptyApp recreateTrace) = some 2 ∧
    epochOf (str "team") (runCommand (runAll emptyApp recreateTrace)
      (Commands.createGroup (str "team") (str "g3") (str "t3") (str "s3"))) =
      some 1 ∧
    ¬ (2 : Nat) ≤ 1 := by
  refine ⟨by decide, by decide, by omega⟩

/-- C1 (amended): a group stored by a successful CreateGroup has epoch 1,
and along any subsequent command sequence that never re-creates a group
under the same name, the stored epoch always equals 1 plus the number of
successful non-idempotent AddMember calls on that group so far - so it is
always at least 1 and never decreases along such a sequence.  (The claim's
final conjunct, that the epoch never decreases under ANY operation, fails:
re-creating the group under its name resets the stored epoch to 1.) -/
theorem C1_epoch_progression (app : MlsChatApp) (u : UserName)
    (name gid th gs : Str)
    (h1 : app.current_user = some u)
    (h2 : (lookupA (userStr u) app.user_keys).isSome = true)
    (cs1 cs2 : List Commands)
    (hcs : ∀ c ∈ cs1 ++ cs2, isCreateOn name c = false) :
    ∃ g1 g2,
      lookupA name (runAll
        (runCommand app (Commands.createGroup name gid th gs)) cs1).groups =
        some g1 ∧
      lookupA name (runAll
        (runCommand app (Commands.createGroup name gid th gs))
        (cs1 ++ cs2)).groups = some g2 ∧
      g1.mls_group.epoch = 1 + countSuccAdds name
        (runCommand app (Commands.createGroup name gid th gs)) cs1 ∧
      g2.mls_group.epoch = 1 + countSuccAdds name
        (runCommand app (Commands.createGroup name gid th gs)) (cs1 ++ cs2) ∧
      1 ≤ g1.mls_group.epoch ∧ g1.mls_group.epoch ≤ g2.mls_group.epoch := by
  obtain ⟨k, hkk⟩ := Option.isSome_iff_exists.mp h2
  have hl0 : lookupA name
      (runCommand app (Commands.createGroup name gid th gs)).groups =
      some ⟨name, gid, [userStr u], [],
        ⟨gid, 1, str "tree_hash_" ++ th, str "group_secret_" ++ gs,
          [userStr u]⟩⟩ := by
    simp [runCommand, applyCommand, create_group, h1, hkk, lookupA_insertA_self]
  have hinv0 : GInv ⟨name, gid, [userStr u], [],
      ⟨gid, 1, str "tree_hash_" ++ th, str "group_secret_" ++ gs,
        [userStr u]⟩⟩ := by
    refine ⟨by simp, ?_, by simp, by simp⟩
    intro x hx
    simp at hx
    subst hx
    cases u
    · exact Or.inl rfl
    · exact Or.inr rfl
  have hcs1 : ∀ c ∈ cs1, isCreateOn name c = false :=
    fun c hc => hcs c (List.mem_append_left _ hc)
  obtain ⟨g1, hll1, hgi1, he1⟩ :=
    trace_epoch name cs1 (runCommand app (Commands.createGroup name gid th gs))
      _ hl0 hinv0 hcs1
  obtain ⟨g2, hll2, hgi2, he2⟩ :=
    trace_epoch name (cs1 ++ cs2)
      (runCommand app (Commands.createGroup name gid th gs)) _ hl0 hinv0 hcs
  have hadd := countSuccAdds_append name cs1 cs2
    (runCommand app (Commands.createGroup name gid th gs))
  simp only [] at he1 he2
  refine ⟨g1, g2, hll1, hll2, ?_, ?_, ?_, ?_⟩
  · simpa using he1
  · simpa using he2
  · have e1 : g1.mls_group.epoch = 1 + countSuccAdds name
        (runCommand app (Commands.createGroup name gid th gs)) cs1 := by
      simpa using he1
    omega
  · have e1 : g1.mls_group.epoch = 1 + countSuccAdds name
        (runCommand app (Commands.createGroup name gid th gs)) cs1 := by
      simpa using he1
    have e2 : g2.mls_group.epoch = 1 + countSuccAdds name
        (runCommand app (Commands.createGroup name gid th gs)) (cs1 ++ cs2) := by
      simpa using he2
    omega

/-- Witness for C1: Alice initialized, team created, Bob initialized and
added (one successful non-idempotent add), then a second idempotent add. -/
theorem C1_epoch_progression_witness :
    ∃ g1 g2,
      lookupA (str "team") (runAll
        (runCommand (runCommand emptyApp
          (Commands.init UserName.Alice (str "k1") (str "p1") (str "q1")))
          (Commands.createGroup (str "team") (str "g1") (str "t1") (str "s1")))
        [Commands.init UserName.Bob (str "k2") (str "p2") (str "q2"),
         Commands.addMember (str "team") UserName.Bob (str "s2") (str "t2")]).groups =
        some g1 ∧
      lookupA (str "team") (runAll
        (runCommand (runCommand emptyApp
          (Commands.init UserName.Alice (str "k1") (str "p1") (str "q1")))
          (Commands.createGroup (str "team") (str "g1") (str "t1") (str "s1")))
        ([Commands.init UserName.Bob (str "k2") (str "p2") (str "q2"),
          Commands.addMember (str "team") UserName.Bob (str "s2") (str "t2")] ++
         [Commands.addMember (str "team") UserName.Bob (str "s4") (str "t4")])).groups =
        some g2 ∧
      g1.mls_group.epoch = 1 + countSuccAdds (str "team")
        (runCommand (runCommand emptyApp
          (Commands.init UserName.Alice (str "k1") (str "p1") (str "q1")))
          (Commands.createGroup (str "team") (str "g1") (str "t1") (str "s1")))
        [Commands.init UserName.Bob (str "k2") (str "p2") (str "q2"),
         Commands.addMember (str "team") UserName.Bob (str "s2") (str "t2")] ∧
      g2.mls_group.epoch = 1 + countSuccAdds (str "team")
        (runCommand (runCommand emptyApp
          (Commands.init UserName.Alice (str "k1") (str "p1") (str "q1")))
          (Commands.createGroup (str "team") (str "g1") (str "t1") (str "s1")))
        ([Commands.init UserName.Bob (str "k2") (str "p2") (str "q2"),
          Commands.addMember (str "team") UserName.Bob (str "s2") (str "t2")] ++
         [Commands.addMember (str "team") UserName.Bob (str "s4") (str "t4")]) ∧
      1 ≤ g1.mls_group.epoch ∧ g1.mls_group.epoch ≤ g2.mls_group.epoch :=
  C1_epoch_progression
    (runCommand emptyApp
      (Commands.init UserName.Alice (str "k1") (str "p1") (str "q1")))
    UserName.Alice (str "team") (str "g1") (str "t1") (str "s1")
    (by decide) (by decide)
    [Commands.init UserName.Bob (str "k2") (str "p2") (str "q2"),
     Commands.addMember (str "team") UserName.Bob (str "s2") (str "t2")]
    [Commands.addMember (str "team") UserName.Bob (str "s4") (str "t4")]
    (by decide)
